import Mathlib

/-!
Verification of the toroidal Game-of-Life simulator and its glyph renderer.

The development shallowly embeds the program: the grid container `Array2d`
stores its cells in a flat row-major list, indexing that the program guards
with assertions is modelled as `Option`-valued access, the wrapping
coordinate arithmetic `move_wrapping` mirrors the `checked_add_signed`
construction of the source, and the per-cell transition, the double-buffered
`update` loop and the braille/block renderer are translated function by
function.  Spec-side definitions (`lifeRule`, `aliveNeighbors`,
`brailleDotWeight`) restate the documented behaviour independently and are
related to the code-side definitions by the claim theorems.
-/

namespace GoL

/-- Cell state: `Dead` or `Alive`. -/
inductive Cell where
  | Dead : Cell
  | Alive : Cell
deriving DecidableEq, Repr

instance : Fintype Cell where
  elems := {Cell.Dead, Cell.Alive}
  complete := by intro c; cases c <;> simp

/-- Row-major 2D array, mirroring `Array2d { w, h, v: Vec<T> }`. -/
structure Array2d (α : Type) where
  w : Nat
  h : Nat
  v : List α
deriving DecidableEq, Repr

namespace Array2d

/-- `Array2d::new_with`: fill row-major, `init(i, j)` for `i in 0..h`, `j in 0..w`. -/
def new_with (w h : Nat) (init : Nat → Nat → α) : Array2d α :=
  { w := w, h := h,
    v := (List.range h).flatMap (fun i => (List.range w).map (fun j => init i j)) }

/-- `Array2d::new`: constant fill. -/
def new (w h : Nat) (val : α) : Array2d α :=
  new_with w h (fun _ _ => val)

/-- `Array2d::dims`: returns `(w, h)`. -/
def dims (a : Array2d α) : Nat × Nat :=
  (a.w, a.h)

/-- Well-formedness: the flat vector holds exactly one entry per coordinate. -/
def wf (a : Array2d α) : Prop :=
  a.v.length = a.w * a.h

instance (a : Array2d α) : Decidable a.wf := by
  unfold wf; infer_instance

/-- The `Index` impl: `assert!(i < h)`, `assert!(j < w)`, then `v[i*w + j]`.
Assertion or vector-bounds failure is modelled as `none`. -/
def index? (a : Array2d α) (i j : Nat) : Option α :=
  if i < a.h ∧ j < a.w then a.v[i * a.w + j]? else none

/-- The `IndexMut` impl used for writes: same bounds checks, then the single
slot `i*w + j` is replaced. -/
def set? (a : Array2d α) (i j : Nat) (x : α) : Option (Array2d α) :=
  if i < a.h ∧ j < a.w then
    if i * a.w + j < a.v.length then
      some { a with v := a.v.set (i * a.w + j) x }
    else none
  else none

/-- Total accessor (defaulting out-of-range reads); used on the spec side and
agreeing with `index?` on well-formed arrays at in-range coordinates. -/
def get (a : Array2d α) (i j : Nat) (d : α) : α :=
  (a.v[i * a.w + j]?).getD d

end Array2d

/-- The cell buffer type `Buff = Array2d<Cell>`. -/
abbrev Buff := Array2d Cell

/-- Spec-side total read of a cell buffer (out-of-range defaults to `Dead`;
all uses in the theorems are in range on well-formed buffers). -/
def cellAt (b : Buff) (i j : Nat) : Cell :=
  b.get i j Cell.Dead

/-- `usize::checked_add_signed`: `none` when the signed addition would go
below zero.  (The upper overflow at `usize::MAX` cannot occur here: every
call adds an offset in `{-1,0,1}` to an index strictly below a `usize`
dimension.) -/
def checked_add_signed (x : Nat) (dx : Int) : Option Nat :=
  if (x : Int) + dx < 0 then none else some ((x : Int) + dx).toNat

/-- The `move_wrapping` closure of `cell_evolution`:
`x.checked_add_signed(dx).unwrap_or(limit - 1)`, then `limit` snaps to `0`. -/
def move_wrapping (x : Nat) (dx : Int) (limit : Nat) : Nat :=
  let x1 := (checked_add_signed x dx).getD (limit - 1)
  if x1 = limit then 0 else x1

/-- `NEIGHBORS_DIRS_X` of `cell_evolution`. -/
def NEIGHBORS_DIRS_X : List Int := [-1, 0, 1, -1, 1, -1, 0, 1]

/-- `NEIGHBORS_DIRS_Y` of `cell_evolution`. -/
def NEIGHBORS_DIRS_Y : List Int := [-1, -1, -1, 0, 0, 1, 1, 1]

/-- `neighbors_dirs = NEIGHBORS_DIRS_X.iter().zip(NEIGHBORS_DIRS_Y.iter())`. -/
def neighbors_dirs : List (Int × Int) := NEIGHBORS_DIRS_X.zip NEIGHBORS_DIRS_Y

/-- `GameOfLife::cell_evolution`: count the 8 wrapped Moore neighbors of
`(i, j)` that are alive, then apply the guard-ordered match of the source
(birth, death by isolation, death by overpopulation, stable).  Every grid
read goes through the assertion-checked `index?`. -/
def cell_evolution (buff : Buff) (i j : Nat) : Option Cell := do
  let (w, h) := buff.dims
  let neighbors := neighbors_dirs.map (fun d =>
    (move_wrapping i d.1 h, move_wrapping j d.2 w))
  let cells ← neighbors.mapM (fun pos => buff.index? pos.1 pos.2)
  let neighbor_count : Nat :=
    (cells.map (fun c => match c with | Cell.Alive => 1 | Cell.Dead => 0)).sum
  let c ← buff.index? i j
  pure (if c = Cell.Dead ∧ neighbor_count = 3 then Cell.Alive
    else if c = Cell.Alive ∧ neighbor_count < 2 then Cell.Dead
    else if c = Cell.Alive ∧ neighbor_count > 3 then Cell.Dead
    else if c = Cell.Alive then Cell.Alive
    else Cell.Dead)

/-- Spec-side list of the 8 Moore offsets `{-1,0,1}×{-1,0,1}` minus `(0,0)`,
as `(row offset, column offset)` pairs. -/
def mooreOffsets : List (Int × Int) :=
  [(-1, -1), (0, -1), (1, -1), (-1, 0), (1, 0), (-1, 1), (0, 1), (1, 1)]

/-- Spec-side alive-neighbor count: each offset is added to the coordinate
and reduced by true modulo (`Int.emod`, nonnegative result) per dimension. -/
def aliveNeighbors (b : Buff) (i j : Nat) : Nat :=
  (mooreOffsets.filter (fun d =>
    cellAt b ((((i : Int) + d.1) % (b.h : Int)).toNat)
             ((((j : Int) + d.2) % (b.w : Int)).toNat) = Cell.Alive)).length

/-- Spec-side transition rule, stated exactly as the specification words it:
birth on exactly 3, death below 2 or above 3, otherwise the state is kept. -/
def lifeRule (c : Cell) (n : Nat) : Cell :=
  if c = Cell.Dead ∧ n = 3 then Cell.Alive
  else if c = Cell.Alive ∧ n < 2 then Cell.Dead
  else if c = Cell.Alive ∧ n > 3 then Cell.Dead
  else c

/-- Shorthand for the value the update loop stores for one cell. -/
def evolved (prev : Buff) (i j : Nat) : Cell :=
  lifeRule (cellAt prev i j) (aliveNeighbors prev i j)

/-- `GameOfLife { buffs: (Buff, Buff), epoch_parity: bool }`. -/
structure GameOfLife where
  buffs : Buff × Buff
  epoch_parity : Bool
deriving DecidableEq, Repr

namespace GameOfLife

/-- `GameOfLife::new`: keep the start buffer, allocate a same-sized
all-`Dead` scratch buffer, set the parity flag. -/
def new (start : Buff) : GameOfLife :=
  let (w, h) := start.dims
  let other := Array2d.new w h Cell.Dead
  { buffs := (start, other), epoch_parity := true }

/-- `GameOfLife::state`: the buffer selected by the parity flag. -/
def state (g : GameOfLife) : Buff :=
  if g.epoch_parity then g.buffs.1 else g.buffs.2

/-- Columns `0..n` of one row of the update loop: each step computes
`cell_evolution(prev, i, j)` and stores it through the assertion-checked
write `set?`. -/
def writeRow (prev : Buff) (i : Nat) : Nat → Buff → Option Buff
  | 0, acc => some acc
  | j + 1, acc => do
    let acc' ← writeRow prev i j acc
    let c ← cell_evolution prev i j
    acc'.set? i j c

/-- Rows `0..n` of the update loop, each row running over `w` columns. -/
def writeRows (prev : Buff) (w : Nat) : Nat → Buff → Option Buff
  | 0, acc => some acc
  | i + 1, acc => do
    let acc' ← writeRows prev w i acc
    writeRow prev i w acc'

/-- `GameOfLife::update`: select `(prev, next)` by the parity flag, flip the
flag, then overwrite every cell of `next` with the evolved value of `prev`. -/
def update? (g : GameOfLife) : Option GameOfLife := do
  let prev := if g.epoch_parity then g.buffs.1 else g.buffs.2
  let next := if g.epoch_parity then g.buffs.2 else g.buffs.1
  let epoch_parity := !g.epoch_parity
  let (w, h) := prev.dims
  let next' ← writeRows prev w h next
  pure { buffs :=
           if g.epoch_parity then (g.buffs.1, next') else (next', g.buffs.2),
         epoch_parity := epoch_parity }

/-- Reachable-state invariant: both buffers are well-formed and share
dimensions. -/
def Inv (g : GameOfLife) : Prop :=
  g.buffs.1.wf ∧ g.buffs.2.wf ∧ g.buffs.1.dims = g.buffs.2.dims

end GameOfLife

/-- `TerminalRenderer`, reduced to its `braille` flag (the held stdout handle
is external I/O and irrelevant to glyph selection). -/
structure TerminalRenderer where
  braille : Bool
deriving DecidableEq, Repr

/-- `TerminalRenderer::char_size`: `(2, 4)` in braille mode, else `(1, 1)`. -/
def char_size (r : TerminalRenderer) : Nat × Nat :=
  if r.braille then (2, 4) else (1, 1)

/-- `char::from_u32` on codepoints: `none` exactly on surrogate values and
values above `0x10FFFF`. -/
def char_from_u32 (n : Nat) : Option Nat :=
  if (0xD800 ≤ n ∧ n ≤ 0xDFFF) ∨ 0x10FFFF < n then none else some n

/-- The braille sub-cell offsets `(di, dj)` of `decide_char`, listed in dot
order 1, 2, 3, 4, 5, 6, 7, 8. -/
def positions : List (Nat × Nat) :=
  [(0, 0), (1, 0), (2, 0), (0, 1), (1, 1), (2, 1), (3, 0), (3, 1)]

/-- The bit-packing fold of `decide_char`: reverse the read sub-cells and
fold `(acc << 1) | bit`. -/
def pack (cells : List Cell) : Nat :=
  cells.reverse.foldl (fun acc cell =>
    (acc <<< 1) ||| (match cell with | Cell.Alive => 1 | Cell.Dead => 0)) 0

/-- `TerminalRenderer::decide_char`, with glyphs as Unicode codepoints:
block mode maps the single cell to `'█'` (`0x2588`) or `' '` (`0x20`);
braille mode packs the 2-wide, 4-tall block at `(i, j)` and offsets the
Braille Patterns base `0x2800`. -/
def decide_char (r : TerminalRenderer) (b : Buff) (i j : Nat) : Option Nat :=
  if !r.braille then
    (b.index? i j).map (fun c =>
      match c with | Cell.Alive => 0x2588 | Cell.Dead => 0x20)
  else do
    let cells ← positions.mapM (fun d => b.index? (i + d.1) (j + d.2))
    let braille_number := pack cells
    char_from_u32 (0x2800 + braille_number)

/-- `<TerminalRenderer as Renderer>::size`, with the externally queried
terminal size passed as arguments: screen size times character cell size. -/
def size (r : TerminalRenderer) (screen_w screen_h : Nat) : Nat × Nat :=
  (screen_w * (char_size r).1, screen_h * (char_size r).2)

/-- `<TerminalRenderer as Renderer>::render`, modelled as the row-major grid
of glyphs it prints: screen row `line` reads grid row `line * hs`, screen
column `x` reads grid column `x * ws`.  Failure of any grid read aborts
with `none`. -/
def render? (r : TerminalRenderer) (screen_w screen_h : Nat) (b : Buff) :
    Option (List (List Nat)) :=
  (List.range screen_h).mapM (fun line =>
    (List.range screen_w).mapM (fun x =>
      decide_char r b (line * (char_size r).2) (x * (char_size r).1)))

/-- Spec-side bit value of a cell. -/
def bitOf (c : Cell) : Nat :=
  match c with | Cell.Alive => 1 | Cell.Dead => 0

/-- Spec-side canonical Braille bit weight of sub-cell offset `(di, dj)`:
dots 1-2-3 (left column, rows 0-2) are bits 0,1,2; dots 4-5-6 (right
column, rows 0-2) are bits 3,4,5; dot 7 `(3,0)` is bit 6; dot 8 `(3,1)` is
bit 7. -/
def brailleDotWeight (di dj : Nat) : Nat :=
  2 ^ (if di < 3 then dj * 3 + di else 6 + dj)

/-- The `k`-th sub-cell offset of the braille block. -/
def positionAt (k : Fin 8) : Nat × Nat :=
  positions.get (Fin.cast (by rfl) k)

/-- Cell complement, used to state the single-sub-cell flip property. -/
def flip (c : Cell) : Cell :=
  match c with | Cell.Alive => Cell.Dead | Cell.Dead => Cell.Alive

/-- 4×4 demonstration buffer used by the witnesses: two alive cells. -/
def demoBuff : Buff :=
  Array2d.new_with 4 4 (fun i j =>
    if i = 1 ∧ (j = 1 ∨ j = 2) then Cell.Alive else Cell.Dead)

/-- 6×6 all-dead fixture. -/
def deadBuff6 : Buff := Array2d.new 6 6 Cell.Dead

/-- 6×6 otherwise-dead fixture with a single alive cell at `(2, 2)`. -/
def singleCellBuff : Buff :=
  Array2d.new_with 6 6 (fun i j =>
    if i = 2 ∧ j = 2 then Cell.Alive else Cell.Dead)

/-- 6×6 otherwise-dead fixture with a 2×2 alive block at rows 2-3,
columns 2-3. -/
def blockBuff : Buff :=
  Array2d.new_with 6 6 (fun i j =>
    if (i = 2 ∨ i = 3) ∧ (j = 2 ∨ j = 3) then Cell.Alive else Cell.Dead)

/-- 6×6 otherwise-dead fixture with a horizontal blinker on row 2,
columns 1-3. -/
def blinkerBuff : Buff :=
  Array2d.new_with 6 6 (fun i j =>
    if i = 2 ∧ (j = 1 ∨ j = 2 ∨ j = 3) then Cell.Alive else Cell.Dead)

/-- 4×8 all-dead buffer matching a 2×2 screen in braille mode. -/
def brailleDemoBuff : Buff := Array2d.new 4 8 Cell.Dead

/-- 4×8 all-alive buffer. -/
def brailleAliveBuff : Buff := Array2d.new 4 8 Cell.Alive

/-- `brailleDemoBuff` with the single sub-cell `(0, 0)` flipped alive. -/
def brailleDemoBuffFlipped : Buff :=
  Array2d.new_with 4 8 (fun i j =>
    if i = 0 ∧ j = 0 then Cell.Alive else Cell.Dead)

namespace Array2d

theorem flat_index_lt {a : Array2d α} (hwf : a.wf) {i j : Nat}
    (hi : i < a.h) (hj : j < a.w) : i * a.w + j < a.v.length := by
  rw [hwf]
  calc i * a.w + j < i * a.w + a.w := by omega
    _ = (i + 1) * a.w := by ring
    _ ≤ a.h * a.w := Nat.mul_le_mul_right _ (by omega)
    _ = a.w * a.h := Nat.mul_comm _ _

theorem index?_eq_get {a : Array2d α} (hwf : a.wf) {i j : Nat} (d : α)
    (hi : i < a.h) (hj : j < a.w) : a.index? i j = some (a.get i j d) := by
  have hlt := flat_index_lt hwf hi hj
  unfold index? get
  rw [if_pos ⟨hi, hj⟩, List.getElem?_eq_getElem hlt]
  rfl

theorem index?_isSome_iff {a : Array2d α} (hwf : a.wf) {i j : Nat} :
    (a.index? i j).isSome ↔ i < a.h ∧ j < a.w := by
  constructor
  · intro h
    by_contra hc
    simp [index?, hc] at h
  · rintro ⟨hi, hj⟩
    have hlt := flat_index_lt hwf hi hj
    simp [index?, hi, hj, List.getElem?_eq_getElem hlt]

theorem index?_none_of_out {a : Array2d α} {i j : Nat}
    (h : ¬(i < a.h ∧ j < a.w)) : a.index? i j = none := by
  simp [index?, h]

theorem set?_eq_some {a : Array2d α} (hwf : a.wf) {i j : Nat} (x : α)
    (hi : i < a.h) (hj : j < a.w) :
    a.set? i j x = some { a with v := a.v.set (i * a.w + j) x } := by
  have hlt := flat_index_lt hwf hi hj
  simp [set?, hi, hj, hlt]

theorem set?_none_of_out {a : Array2d α} {i j : Nat} (x : α)
    (h : ¬(i < a.h ∧ j < a.w)) : a.set? i j x = none := by
  simp [set?, h]

theorem set?_dims {a a' : Array2d α} {i j : Nat} {x : α}
    (h : a.set? i j x = some a') : a'.w = a.w ∧ a'.h = a.h ∧
      a'.v.length = a.v.length := by
  unfold set? at h
  split at h
  · split at h
    · cases h; simp
    · cases h
  · cases h

theorem set?_wf {a a' : Array2d α} {i j : Nat} {x : α}
    (hwf : a.wf) (h : a.set? i j x = some a') : a'.wf := by
  obtain ⟨h1, h2, h3⟩ := set?_dims h
  unfold wf at hwf ⊢
  rw [h1, h2, h3, hwf]

theorem index?_set?_self {a a' : Array2d α} {i j : Nat} {x : α}
    (h : a.set? i j x = some a') : a'.index? i j = some x := by
  unfold set? at h
  split at h
  · rename_i hin
    split at h
    · rename_i hlt
      cases h
      simp [index?, hin.1, hin.2, List.getElem?_set_self hlt]
    · cases h
  · cases h

theorem index?_set?_other {a a' : Array2d α} {i j i' j' : Nat} {x : α}
    (h : a.set? i j x = some a')
    (hne : ¬(i' = i ∧ j' = j)) : a'.index? i' j' = a.index? i' j' := by
  unfold set? at h
  split at h
  · rename_i hin
    split at h
    · cases h
      by_cases hin' : i' < a.h ∧ j' < a.w
      · have hflatne : i * a.w + j ≠ i' * a.w + j' := by
          intro he
          have hj'w := hin'.2
          have hjw := hin.2
          rcases Nat.lt_trichotomy i' i with hlt | heq | hgt
          · have : i' * a.w + j' < i * a.w + j := by
              calc i' * a.w + j' < i' * a.w + a.w := by omega
                _ = (i' + 1) * a.w := by ring
                _ ≤ i * a.w := Nat.mul_le_mul_right _ (by omega)
                _ ≤ i * a.w + j := by omega
            omega
          · subst heq
            have : j' = j := by omega
            exact hne ⟨rfl, this⟩
          · have : i * a.w + j < i' * a.w + j' := by
              calc i * a.w + j < i * a.w + a.w := by omega
                _ = (i + 1) * a.w := by ring
                _ ≤ i' * a.w := Nat.mul_le_mul_right _ (by omega)
                _ ≤ i' * a.w + j' := by omega
            omega
        simp [index?, hin'.1, hin'.2, List.getElem?_set_ne hflatne]
      · simp [index?, hin']
    · cases h
  · cases h

theorem new_with_w (w h : Nat) (init : Nat → Nat → α) :
    (new_with w h init).w = w := rfl

theorem new_with_h (w h : Nat) (init : Nat → Nat → α) :
    (new_with w h init).h = h := rfl

theorem flatMap_const_length (f : Nat → List α) (w : Nat)
    (hw : ∀ i, (f i).length = w) :
    ∀ (n s : Nat), ((List.range' s n).flatMap f).length = n * w := by
  intro n
  induction n with
  | zero => intro s; simp
  | succ m ih =>
    intro s
    rw [List.range'_succ, List.flatMap_cons, List.length_append, hw, ih]
    ring

theorem new_with_wf (w h : Nat) (init : Nat → Nat → α) :
    (new_with w h init).wf := by
  unfold new_with wf
  simp only
  rw [List.range_eq_range',
    flatMap_const_length (fun i => (List.range w).map (init i)) w
      (fun k => by simp) h 0]
  exact Nat.mul_comm h w

theorem range'_flatMap_get {α : Type} (f : Nat → List α) (w : Nat)
    (hw : ∀ i, (f i).length = w) :
    ∀ (n s i j : Nat), i < n → j < w →
      ((List.range' s n).flatMap f)[i * w + j]? = (f (s + i))[j]? := by
  intro n
  induction n with
  | zero => intro s i j hi; omega
  | succ m ih =>
    intro s i j hi hj
    rw [List.range'_succ, List.flatMap_cons]
    cases i with
    | zero =>
      simp only [Nat.zero_mul, Nat.zero_add]
      rw [List.getElem?_append_left (by rw [hw s]; exact hj)]
      simp
    | succ i' =>
      have hb : (f s).length ≤ (i' + 1) * w + j := by
        rw [hw s, Nat.succ_mul]
        omega
      rw [List.getElem?_append_right hb, hw s]
      have harith : (i' + 1) * w + j - w = i' * w + j := by
        rw [Nat.succ_mul]; omega
      rw [harith, ih (s + 1) i' j (by omega) hj]
      have hs : s + 1 + i' = s + (i' + 1) := by omega
      rw [hs]

theorem new_with_index? (w h : Nat) (init : Nat → Nat → α) {i j : Nat}
    (hi : i < h) (hj : j < w) :
    (new_with w h init).index? i j = some (init i j) := by
  simp only [new_with, index?]
  rw [if_pos ⟨hi, hj⟩]
  rw [List.range_eq_range',
    range'_flatMap_get (fun i => (List.range w).map (init i)) w
      (fun k => by simp) h 0 i j hi hj]
  simp [List.getElem?_range hj]

end Array2d

theorem emod_toNat_eq {l : Nat} (_hl : 0 < l) (a q : Int) (r : Nat)
    (hq : a = (r : Int) + (l : Int) * q) (hr : r < l) :
    (a % (l : Int)).toNat = r := by
  rw [hq, Int.add_mul_emod_self_left,
    Int.emod_eq_of_lt (by omega) (by omega)]
  omega

theorem move_wrapping_emod {x : Nat} {limit : Nat} (dx : Int)
    (hx : x < limit) (hdx : dx = -1 ∨ dx = 0 ∨ dx = 1) :
    move_wrapping x dx limit = (((x : Int) + dx) % (limit : Int)).toNat := by
  have hl : 0 < limit := by omega
  rcases hdx with h | h | h <;> subst h
  · by_cases h0 : x = 0
    · subst h0
      have hL : move_wrapping 0 (-1) limit = limit - 1 := by
        have hneg : ((0 : Nat) : Int) + (-1) < 0 := by simp
        simp only [move_wrapping, checked_add_signed, if_pos hneg,
          Option.getD_none]
        rw [if_neg (by omega)]
      have hR := emod_toNat_eq hl (((0 : Nat) : Int) + (-1)) (-1) (limit - 1)
        (by omega) (by omega)
      omega
    · have hL : move_wrapping x (-1) limit = x - 1 := by
        have hneg : ¬ ((x : Int) + (-1) < 0) := by omega
        simp only [move_wrapping, checked_add_signed, if_neg hneg,
          Option.getD_some]
        rw [if_neg (by omega : ¬ ((x : Int) + (-1)).toNat = limit)]
        omega
      have hR := emod_toNat_eq hl ((x : Int) + (-1)) 0 (x - 1)
        (by omega) (by omega)
      omega
  · have hL : move_wrapping x 0 limit = x := by
      have hneg : ¬ ((x : Int) + 0 < 0) := by omega
      simp only [move_wrapping, checked_add_signed, if_neg hneg,
        Option.getD_some]
      rw [if_neg (by omega : ¬ ((x : Int) + 0).toNat = limit)]
      omega
    have hR := emod_toNat_eq hl ((x : Int) + 0) 0 x (by omega) hx
    omega
  · by_cases he : x + 1 = limit
    · have hL : move_wrapping x 1 limit = 0 := by
        have hneg : ¬ ((x : Int) + 1 < 0) := by omega
        simp only [move_wrapping, checked_add_signed, if_neg hneg,
          Option.getD_some]
        rw [if_pos (by omega : ((x : Int) + 1).toNat = limit)]
      have hR := emod_toNat_eq hl ((x : Int) + 1) 1 0 (by omega) hl
      omega
    · have hL : move_wrapping x 1 limit = x + 1 := by
        have hneg : ¬ ((x : Int) + 1 < 0) := by omega
        simp only [move_wrapping, checked_add_signed, if_neg hneg,
          Option.getD_some]
        rw [if_neg (by omega : ¬ ((x : Int) + 1).toNat = limit)]
        omega
      have hR := emod_toNat_eq hl ((x : Int) + 1) 0 (x + 1)
        (by omega) (by omega)
      omega

theorem move_wrapping_lt {x : Nat} {limit : Nat} (dx : Int)
    (hx : x < limit) (hdx : dx = -1 ∨ dx = 0 ∨ dx = 1) :
    move_wrapping x dx limit < limit := by
  rw [move_wrapping_emod dx hx hdx]
  have hpos : (0 : Int) < (limit : Int) := by omega
  have h1 := Int.emod_lt_of_pos ((x : Int) + dx) hpos
  have h2 := Int.emod_nonneg ((x : Int) + dx) (by omega : (limit : Int) ≠ 0)
  omega

theorem emod_toNat_lt {l : Nat} (hl : 0 < l) (a : Int) :
    (a % (l : Int)).toNat < l := by
  have h1 := Int.emod_lt_of_pos a (by omega : (0 : Int) < (l : Int))
  have h2 := Int.emod_nonneg a (by omega : (l : Int) ≠ 0)
  omega

theorem move_wrapping_zero_neg {limit : Nat} (hl : 0 < limit) :
    move_wrapping 0 (-1) limit = limit - 1 := by
  have hneg : ((0 : Nat) : Int) + (-1) < 0 := by simp
  simp only [move_wrapping, checked_add_signed, if_pos hneg, Option.getD_none]
  rw [if_neg (by omega)]

theorem move_wrapping_last_one {limit : Nat} (hl : 0 < limit) :
    move_wrapping (limit - 1) 1 limit = 0 := by
  have hneg : ¬ (((limit - 1 : Nat) : Int) + 1 < 0) := by omega
  simp only [move_wrapping, checked_add_signed, if_neg hneg, Option.getD_some]
  rw [if_pos (by omega)]

theorem neighbors_dirs_eq_moore : neighbors_dirs = mooreOffsets := by decide

theorem index?_wrapped {b : Buff} (hwf : b.wf) {i j : Nat}
    (hi : i < b.h) (hj : j < b.w) (dx dy : Int)
    (hdx : dx = -1 ∨ dx = 0 ∨ dx = 1) (hdy : dy = -1 ∨ dy = 0 ∨ dy = 1) :
    b.index? (move_wrapping i dx b.h) (move_wrapping j dy b.w) =
      some (cellAt b ((((i : Int) + dx) % (b.h : Int)).toNat)
                     ((((j : Int) + dy) % (b.w : Int)).toNat)) := by
  rw [move_wrapping_emod dx hi hdx, move_wrapping_emod dy hj hdy]
  exact Array2d.index?_eq_get hwf Cell.Dead
    (emod_toNat_lt (by omega) _) (emod_toNat_lt (by omega) _)

theorem cell_evolution_eq_lifeRule (b : Buff) (hwf : b.wf) (i j : Nat)
    (hi : i < b.h) (hj : j < b.w) :
    cell_evolution b i j =
      some (lifeRule (cellAt b i j) (aliveNeighbors b i j)) := by
  have hcenter : b.index? i j = some (cellAt b i j) :=
    Array2d.index?_eq_get hwf Cell.Dead hi hj
  have k1 := index?_wrapped hwf hi hj (-1) (-1) (by simp) (by simp)
  have k2 := index?_wrapped hwf hi hj 0 (-1) (by simp) (by simp)
  have k3 := index?_wrapped hwf hi hj 1 (-1) (by simp) (by simp)
  have k4 := index?_wrapped hwf hi hj (-1) 0 (by simp) (by simp)
  have k5 := index?_wrapped hwf hi hj 1 0 (by simp) (by simp)
  have k6 := index?_wrapped hwf hi hj (-1) 1 (by simp) (by simp)
  have k7 := index?_wrapped hwf hi hj 0 1 (by simp) (by simp)
  have k8 := index?_wrapped hwf hi hj 1 1 (by simp) (by simp)
  rw [cell_evolution]
  rw [neighbors_dirs_eq_moore]
  simp only [Array2d.dims, mooreOffsets, List.map_cons, List.map_nil,
    List.mapM_cons, List.mapM_nil, k1, k2, k3, k4, k5, k6, k7, k8, hcenter,
    Option.bind_some, Option.pure_def, Option.bind_eq_bind, Option.some_bind]
  simp only [aliveNeighbors, mooreOffsets, List.filter, List.map_cons,
    List.map_nil, List.sum_cons, List.sum_nil]
  generalize cellAt b i j = c0
  generalize cellAt b ((((i : Int) + (-1)) % (b.h : Int)).toNat)
    ((((j : Int) + (-1)) % (b.w : Int)).toNat) = c1
  generalize cellAt b ((((i : Int) + 0) % (b.h : Int)).toNat)
    ((((j : Int) + (-1)) % (b.w : Int)).toNat) = c2
  generalize cellAt b ((((i : Int) + 1) % (b.h : Int)).toNat)
    ((((j : Int) + (-1)) % (b.w : Int)).toNat) = c3
  generalize cellAt b ((((i : Int) + (-1)) % (b.h : Int)).toNat)
    ((((j : Int) + 0) % (b.w : Int)).toNat) = c4
  generalize cellAt b ((((i : Int) + 1) % (b.h : Int)).toNat)
    ((((j : Int) + 0) % (b.w : Int)).toNat) = c5
  generalize cellAt b ((((i : Int) + (-1)) % (b.h : Int)).toNat)
    ((((j : Int) + 1) % (b.w : Int)).toNat) = c6
  generalize cellAt b ((((i : Int) + 0) % (b.h : Int)).toNat)
    ((((j : Int) + 1) % (b.w : Int)).toNat) = c7
  generalize cellAt b ((((i : Int) + 1) % (b.h : Int)).toNat)
    ((((j : Int) + 1) % (b.w : Int)).toNat) = c8
  revert c0 c1 c2 c3 c4 c5 c6 c7 c8
  decide

namespace GameOfLife

theorem writeRow_spec (prev : Buff) (hp : prev.wf) (i : Nat)
    (hi : i < prev.h) :
    ∀ (n : Nat) (acc : Buff), n ≤ prev.w → acc.w = prev.w → acc.h = prev.h →
      acc.wf →
      ∃ acc', writeRow prev i n acc = some acc' ∧ acc'.w = acc.w ∧
        acc'.h = acc.h ∧ acc'.wf ∧
        ∀ i' j', acc'.index? i' j' =
          if i' = i ∧ j' < n then some (evolved prev i' j')
          else acc.index? i' j' := by
  intro n
  induction n with
  | zero =>
    intro acc _ hw hh hwf
    refine ⟨acc, rfl, rfl, rfl, hwf, ?_⟩
    intro i' j'
    rw [if_neg (by omega)]
  | succ m ih =>
    intro acc hn hw hh hwf
    obtain ⟨acc', heq, hw', hh', hwf', hidx⟩ := ih acc (by omega) hw hh hwf
    have hcell : cell_evolution prev i m = some (evolved prev i m) :=
      cell_evolution_eq_lifeRule prev hp i m hi (by omega)
    have hset : acc'.set? i m (evolved prev i m) =
        some { acc' with v := acc'.v.set (i * acc'.w + m) (evolved prev i m) } :=
      Array2d.set?_eq_some hwf' _ (by omega) (by omega)
    refine ⟨{ acc' with v := acc'.v.set (i * acc'.w + m) (evolved prev i m) },
      ?_, ?_, ?_, ?_, ?_⟩
    · show writeRow prev i (m + 1) acc = _
      rw [writeRow, heq]
      simp only [Option.bind_eq_bind, Option.some_bind, hcell, hset]
    · simpa using hw'
    · simpa using hh'
    · exact Array2d.set?_wf hwf' hset
    · intro i' j'
      by_cases hc : i' = i ∧ j' = m
      · obtain ⟨rfl, rfl⟩ := hc
        rw [Array2d.index?_set?_self hset, if_pos ⟨rfl, by omega⟩]
      · rw [Array2d.index?_set?_other hset hc, hidx]
        by_cases hc2 : i' = i ∧ j' < m
        · rw [if_pos hc2, if_pos ⟨hc2.1, by omega⟩]
        · rw [if_neg hc2, if_neg (by omega)]

theorem writeRows_spec (prev : Buff) (hp : prev.wf) :
    ∀ (n : Nat) (acc : Buff), n ≤ prev.h → acc.w = prev.w → acc.h = prev.h →
      acc.wf →
      ∃ acc', writeRows prev prev.w n acc = some acc' ∧ acc'.w = acc.w ∧
        acc'.h = acc.h ∧ acc'.wf ∧
        ∀ i' j', acc'.index? i' j' =
          if i' < n ∧ j' < prev.w then some (evolved prev i' j')
          else acc.index? i' j' := by
  intro n
  induction n with
  | zero =>
    intro acc _ hw hh hwf
    refine ⟨acc, rfl, rfl, rfl, hwf, ?_⟩
    intro i' j'
    rw [if_neg (by omega)]
  | succ m ih =>
    intro acc hn hw hh hwf
    obtain ⟨acc', heq, hw', hh', hwf', hidx⟩ := ih acc (by omega) hw hh hwf
    obtain ⟨acc'', heq', hw'', hh'', hwf'', hidx'⟩ :=
      writeRow_spec prev hp m (by omega) prev.w acc' (le_refl _)
        (by omega) (by omega) hwf'
    refine ⟨acc'', ?_, by omega, by omega, hwf'', ?_⟩
    · show writeRows prev prev.w (m + 1) acc = _
      rw [writeRows, heq]
      simp only [Option.bind_eq_bind, Option.some_bind, heq']
    · intro i' j'
      rw [hidx', hidx]
      by_cases hc : i' = m ∧ j' < prev.w
      · rw [if_pos hc, if_pos ⟨by omega, hc.2⟩]
      · by_cases hc2 : i' < m ∧ j' < prev.w
        · rw [if_neg hc, if_pos hc2, if_pos ⟨by omega, hc2.2⟩]
        · rw [if_neg hc, if_neg hc2, if_neg (by omega)]

theorem dims_eq_iff {a b : Buff} : a.dims = b.dims ↔ a.w = b.w ∧ a.h = b.h := by
  unfold Array2d.dims
  constructor
  · intro h
    exact ⟨congrArg Prod.fst h, congrArg Prod.snd h⟩
  · rintro ⟨h1, h2⟩
    rw [h1, h2]

theorem update?_spec (g : GameOfLife) (hInv : Inv g) :
    ∃ g', g.update? = some g' ∧
      g'.epoch_parity = !g.epoch_parity ∧ Inv g' ∧
      g'.state.w = g.state.w ∧ g'.state.h = g.state.h ∧
      (∀ i j, i < g.state.h → j < g.state.w →
        g'.state.index? i j = some (evolved g.state i j)) := by
  obtain ⟨⟨b1, b2⟩, par⟩ := g
  obtain ⟨hwf1, hwf2, hdims⟩ := hInv
  simp only at hwf1 hwf2 hdims
  obtain ⟨hweq, hheq⟩ := dims_eq_iff.mp hdims
  cases par
  · -- current buffer is `buffs.2`, scratch is `buffs.1`
    obtain ⟨next', heq, hw', hh', hwf', hidx⟩ :=
      writeRows_spec b2 hwf2 b2.h b1 (le_refl _) hweq hheq hwf1
    refine ⟨⟨(next', b2), true⟩, ?_, ?_, ?_, ?_, ?_, ?_⟩
    · show update? ⟨(b1, b2), false⟩ = _
      simp only [update?, Bool.false_eq_true, if_false, Bool.not_false,
        Array2d.dims, heq, Option.bind_eq_bind, Option.some_bind,
        Option.pure_def]
    · rfl
    · exact ⟨hwf', hwf2, dims_eq_iff.mpr
        ⟨by show next'.w = b2.w; omega, by show next'.h = b2.h; omega⟩⟩
    · simp only [state, Bool.false_eq_true, if_false, if_true]
      omega
    · simp only [state, Bool.false_eq_true, if_false, if_true]
      omega
    · intro i j hi hj
      simp only [state, Bool.false_eq_true, if_false, if_true] at hi hj ⊢
      rw [hidx, if_pos ⟨hi, hj⟩]
  · -- current buffer is `buffs.1`, scratch is `buffs.2`
    obtain ⟨next', heq, hw', hh', hwf', hidx⟩ :=
      writeRows_spec b1 hwf1 b1.h b2 (le_refl _) (by omega) (by omega) hwf2
    refine ⟨⟨(b1, next'), false⟩, ?_, ?_, ?_, ?_, ?_, ?_⟩
    · show update? ⟨(b1, b2), true⟩ = _
      simp only [update?, if_true, Bool.not_true, Array2d.dims, heq,
        Option.bind_eq_bind, Option.some_bind, Option.pure_def]
    · rfl
    · exact ⟨hwf1, hwf', dims_eq_iff.mpr
        ⟨by show b1.w = next'.w; omega, by show b1.h = next'.h; omega⟩⟩
    · simp only [state, if_true, Bool.false_eq_true, if_false]
      omega
    · simp only [state, if_true, Bool.false_eq_true, if_false]
      omega
    · intro i j hi hj
      simp only [state, if_true, Bool.false_eq_true, if_false] at hi hj ⊢
      rw [hidx, if_pos ⟨hi, hj⟩]

end GameOfLife

theorem cellAt_of_index? {b : Buff} {x y : Nat} {c : Cell}
    (h : b.index? x y = some c) : cellAt b x y = c := by
  unfold Array2d.index? at h
  split at h
  · unfold cellAt Array2d.get
    rw [h]
    rfl
  · cases h

theorem cellAt_set?_self {b b' : Buff} {x y : Nat} {c : Cell}
    (h : b.set? x y c = some b') : cellAt b' x y = c :=
  cellAt_of_index? (Array2d.index?_set?_self h)

theorem cellAt_set?_other {b b' : Buff} (hwf : b.wf) {x y x' y' : Nat}
    {c : Cell} (h : b.set? x y c = some b')
    (hx' : x' < b.h) (hy' : y' < b.w)
    (hne : ¬(x' = x ∧ y' = y)) : cellAt b' x' y' = cellAt b x' y' := by
  have hidx := Array2d.index?_set?_other h hne
  rw [Array2d.index?_eq_get hwf Cell.Dead hx' hy'] at hidx
  exact cellAt_of_index? hidx

theorem pack_le_255 : ∀ c0 c1 c2 c3 c4 c5 c6 c7 : Cell,
    pack [c0, c1, c2, c3, c4, c5, c6, c7] ≤ 255 := by decide

theorem pack_formula : ∀ c0 c1 c2 c3 c4 c5 c6 c7 : Cell,
    pack [c0, c1, c2, c3, c4, c5, c6, c7] =
      bitOf c0 + 2 * bitOf c1 + 4 * bitOf c2 + 8 * bitOf c3 +
      16 * bitOf c4 + 32 * bitOf c5 + 64 * bitOf c6 + 128 * bitOf c7 := by
  decide

theorem char_from_u32_braille {n : Nat} (hn : n ≤ 255) :
    char_from_u32 (0x2800 + n) = some (0x2800 + n) := by
  unfold char_from_u32
  rw [if_neg (by omega)]

theorem decide_char_braille_eval {b : Buff} (hwf : b.wf) {i j : Nat}
    (hi : i + 3 < b.h) (hj : j + 1 < b.w) :
    decide_char ⟨true⟩ b i j =
      some (0x2800 + pack [cellAt b (i + 0) (j + 0), cellAt b (i + 1) (j + 0),
        cellAt b (i + 2) (j + 0), cellAt b (i + 0) (j + 1),
        cellAt b (i + 1) (j + 1), cellAt b (i + 2) (j + 1),
        cellAt b (i + 3) (j + 0), cellAt b (i + 3) (j + 1)]) := by
  have r1 : b.index? (i + 0) (j + 0) = some (cellAt b (i + 0) (j + 0)) :=
    Array2d.index?_eq_get hwf Cell.Dead (by omega) (by omega)
  have r2 : b.index? (i + 1) (j + 0) = some (cellAt b (i + 1) (j + 0)) :=
    Array2d.index?_eq_get hwf Cell.Dead (by omega) (by omega)
  have r3 : b.index? (i + 2) (j + 0) = some (cellAt b (i + 2) (j + 0)) :=
    Array2d.index?_eq_get hwf Cell.Dead (by omega) (by omega)
  have r4 : b.index? (i + 0) (j + 1) = some (cellAt b (i + 0) (j + 1)) :=
    Array2d.index?_eq_get hwf Cell.Dead (by omega) (by omega)
  have r5 : b.index? (i + 1) (j + 1) = some (cellAt b (i + 1) (j + 1)) :=
    Array2d.index?_eq_get hwf Cell.Dead (by omega) (by omega)
  have r6 : b.index? (i + 2) (j + 1) = some (cellAt b (i + 2) (j + 1)) :=
    Array2d.index?_eq_get hwf Cell.Dead (by omega) (by omega)
  have r7 : b.index? (i + 3) (j + 0) = some (cellAt b (i + 3) (j + 0)) :=
    Array2d.index?_eq_get hwf Cell.Dead (by omega) (by omega)
  have r8 : b.index? (i + 3) (j + 1) = some (cellAt b (i + 3) (j + 1)) :=
    Array2d.index?_eq_get hwf Cell.Dead (by omega) (by omega)
  have hpack := pack_le_255 (cellAt b (i + 0) (j + 0)) (cellAt b (i + 1) (j + 0))
    (cellAt b (i + 2) (j + 0)) (cellAt b (i + 0) (j + 1))
    (cellAt b (i + 1) (j + 1)) (cellAt b (i + 2) (j + 1))
    (cellAt b (i + 3) (j + 0)) (cellAt b (i + 3) (j + 1))
  simp only [decide_char, Bool.not_true, Bool.false_eq_true, if_false,
    positions, List.mapM_cons, List.mapM_nil, r1, r2, r3, r4, r5, r6, r7, r8,
    Option.bind_eq_bind, Option.some_bind, Option.pure_def]
  exact char_from_u32_braille hpack

theorem decide_char_block_eval {b : Buff} (hwf : b.wf) {i j : Nat}
    (hi : i < b.h) (hj : j < b.w) :
    decide_char ⟨false⟩ b i j =
      some (match cellAt b i j with
        | Cell.Alive => 0x2588 | Cell.Dead => 0x20) := by
  simp only [decide_char, Bool.not_false, if_true,
    Array2d.index?_eq_get hwf Cell.Dead hi hj, Option.map_some']
  rfl

theorem mapM_isSome {α β : Type} (f : α → Option β) :
    ∀ l : List α, (∀ x ∈ l, (f x).isSome) → (l.mapM f).isSome := by
  intro l
  induction l with
  | nil =>
    intro
    rfl
  | cons a t ih =>
    intro h
    obtain ⟨y, hy⟩ := Option.isSome_iff_exists.mp (h a (by simp))
    obtain ⟨ys, hys⟩ := Option.isSome_iff_exists.mp
      (ih (fun x hx => h x (by simp [hx])))
    simp only [List.mapM_cons, hy, hys, Option.bind_eq_bind, Option.some_bind,
      Option.pure_def, Option.isSome_some]

theorem positionAt_le : ∀ k : Fin 8,
    (positionAt k).1 ≤ 3 ∧ (positionAt k).2 ≤ 1 := by decide

theorem positionAt_inj : ∀ m k : Fin 8, positionAt m = positionAt k → m = k := by
  decide

theorem flip_ne : ∀ c : Cell, ¬ (c = flip c) := by decide

theorem brailleDotWeight_at : ∀ k : Fin 8,
    brailleDotWeight (positionAt k).1 (positionAt k).2 = 2 ^ (k : Nat) := by
  decide

set_option maxRecDepth 4000 in
theorem pack_flip : ∀ (k : Fin 8) (f : Fin 8 → Cell) (x : Cell),
    ((pack ((List.finRange 8).map (Function.update f k x)) : Int) -
      (pack ((List.finRange 8).map f) : Int)).natAbs =
    if f k = x then 0 else 2 ^ (k : Nat) := by decide

theorem cells_list_eq (b : Buff) (i j : Nat) :
    [cellAt b (i + 0) (j + 0), cellAt b (i + 1) (j + 0),
     cellAt b (i + 2) (j + 0), cellAt b (i + 0) (j + 1),
     cellAt b (i + 1) (j + 1), cellAt b (i + 2) (j + 1),
     cellAt b (i + 3) (j + 0), cellAt b (i + 3) (j + 1)] =
    (List.finRange 8).map
      (fun m => cellAt b (i + (positionAt m).1) (j + (positionAt m).2)) := by
  rfl

/-- C1: at every in-range coordinate of a well-formed grid, the per-cell
transition `cell_evolution` succeeds and returns exactly the B3/S23 rule
applied to the cell's current state together with the count of its 8
toroidal Moore neighbors that are alive: birth of a `Dead` cell on exactly
3, death of an `Alive` cell below 2 or above 3, otherwise the current state
is retained. -/
theorem c1_cell_evolution_follows_rule (b : Buff) (hwf : b.wf) (i j : Nat)
    (hi : i < b.h) (hj : j < b.w) :
    cell_evolution b i j =
      some (lifeRule (cellAt b i j) (aliveNeighbors b i j)) :=
  cell_evolution_eq_lifeRule b hwf i j hi hj

theorem c1_witness :
    demoBuff.wf ∧ 1 < demoBuff.h ∧ 2 < demoBuff.w ∧
    cell_evolution demoBuff 1 2 =
      some (lifeRule (cellAt demoBuff 1 2) (aliveNeighbors demoBuff 1 2)) :=
  ⟨by decide, by decide, by decide,
    c1_cell_evolution_follows_rule demoBuff (by decide) 1 2
      (by decide) (by decide)⟩

/-- C2: neighbor coordinates wrap toroidally.  The neighbor of `(0, 0)` at
offset `(-1, -1)` is `(H-1, W-1)`; the neighbor of `(H-1, W-1)` at offset
`(1, 1)` is `(0, 0)`; and in general `move_wrapping` computes the true
(nonnegative) modulo `(coord + offset) mod dimension` for every in-range
coordinate and every offset in `{-1, 0, 1}`. -/
theorem c2_move_wrapping_toroidal :
    (∀ w h : Nat, 0 < w → 0 < h →
      (move_wrapping 0 (-1) h, move_wrapping 0 (-1) w) = (h - 1, w - 1)) ∧
    (∀ w h : Nat, 0 < w → 0 < h →
      (move_wrapping (h - 1) 1 h, move_wrapping (w - 1) 1 w) = (0, 0)) ∧
    (∀ (x limit : Nat) (dx : Int), x < limit →
      (dx = -1 ∨ dx = 0 ∨ dx = 1) →
      move_wrapping x dx limit = (((x : Int) + dx) % (limit : Int)).toNat) := by
  refine ⟨?_, ?_, ?_⟩
  · intro w h hw hh
    rw [move_wrapping_zero_neg hh, move_wrapping_zero_neg hw]
  · intro w h hw hh
    rw [move_wrapping_last_one hh, move_wrapping_last_one hw]
  · intro x limit dx hx hdx
    exact move_wrapping_emod dx hx hdx

theorem c2_witness :
    ((0 : Nat) < 5 ∧ (0 : Nat) < 7 ∧ (3 : Nat) < 5 ∧
      ((1 : Int) = -1 ∨ (1 : Int) = 0 ∨ (1 : Int) = 1)) ∧
    (move_wrapping 0 (-1) 7, move_wrapping 0 (-1) 5) = (7 - 1, 5 - 1) ∧
    (move_wrapping (7 - 1) 1 7, move_wrapping (5 - 1) 1 5) = (0, 0) ∧
    move_wrapping 3 1 5 = ((((3 : Nat) : Int) + 1) % ((5 : Nat) : Int)).toNat :=
  ⟨⟨by decide, by decide, by decide, by decide⟩,
    c2_move_wrapping_toroidal.1 5 7 (by decide) (by decide),
    c2_move_wrapping_toroidal.2.1 5 7 (by decide) (by decide),
    c2_move_wrapping_toroidal.2.2 3 5 1 (by decide) (by decide)⟩

/-- C3: one `update` on a reachable state (well-formed buffers of equal
dimensions) always succeeds, flips the parity flag, and afterwards the
current grid returned by `state` holds, at every in-range coordinate, the
transition rule applied to the previous current grid. -/
theorem c3_update_flips_parity_and_applies_rule (g : GameOfLife)
    (h1 : g.buffs.1.wf) (h2 : g.buffs.2.wf)
    (hd : g.buffs.1.dims = g.buffs.2.dims) :
    ∃ g', g.update? = some g' ∧ g'.epoch_parity = !g.epoch_parity ∧
      ∀ i j, i < g.state.h → j < g.state.w →
        g'.state.index? i j =
          some (lifeRule (cellAt g.state i j) (aliveNeighbors g.state i j)) := by
  obtain ⟨g', ha, hb, _, _, _, hf⟩ := GameOfLife.update?_spec g ⟨h1, h2, hd⟩
  exact ⟨g', ha, hb, fun i j hi hj => hf i j hi hj⟩

theorem c3_witness :
    ((GameOfLife.new demoBuff).buffs.1.wf ∧
      (GameOfLife.new demoBuff).buffs.2.wf ∧
      (GameOfLife.new demoBuff).buffs.1.dims =
        (GameOfLife.new demoBuff).buffs.2.dims) ∧
    ∃ g', (GameOfLife.new demoBuff).update? = some g' ∧
      g'.epoch_parity = !(GameOfLife.new demoBuff).epoch_parity ∧
      ∀ i j, i < (GameOfLife.new demoBuff).state.h →
        j < (GameOfLife.new demoBuff).state.w →
        g'.state.index? i j =
          some (lifeRule (cellAt (GameOfLife.new demoBuff).state i j)
            (aliveNeighbors (GameOfLife.new demoBuff).state i j)) :=
  ⟨⟨by decide, by decide, by decide⟩,
    c3_update_flips_parity_and_applies_rule (GameOfLife.new demoBuff)
      (by decide) (by decide) (by decide)⟩

/-- C4: canonical fixtures on a 6×6 otherwise-dead grid.  A single isolated
alive cell is dead after one update; a 2×2 block is unchanged by one
update; a horizontal blinker is reproduced exactly by two updates. -/
theorem c4_canonical_fixtures :
    ((GameOfLife.new singleCellBuff).update?).map GameOfLife.state =
      some deadBuff6 ∧
    ((GameOfLife.new blockBuff).update?).map GameOfLife.state =
      some blockBuff ∧
    (((GameOfLife.new blinkerBuff).update?).bind GameOfLife.update?).map
        GameOfLife.state = some blinkerBuff := by
  decide

/-- C5: braille glyph packing round-trip.  An all-alive 2×4 block emits
`0x2800 + 255` and an all-dead block emits `0x2800 + 0`; flipping exactly
one sub-cell changes the packed 8-bit code by exactly the bit weight of
that sub-cell position under the canonical Braille dot order. -/
theorem c5_braille_pack_round_trip :
    (∀ (b : Buff), b.wf → ∀ i j, i + 3 < b.h → j + 1 < b.w →
      (∀ d ∈ positions, cellAt b (i + d.1) (j + d.2) = Cell.Alive) →
      decide_char ⟨true⟩ b i j = some (0x2800 + 255)) ∧
    (∀ (b : Buff), b.wf → ∀ i j, i + 3 < b.h → j + 1 < b.w →
      (∀ d ∈ positions, cellAt b (i + d.1) (j + d.2) = Cell.Dead) →
      decide_char ⟨true⟩ b i j = some (0x2800 + 0)) ∧
    (∀ (b b' : Buff), b.wf → ∀ i j, i + 3 < b.h → j + 1 < b.w →
      ∀ (k : Fin 8) (c : Cell),
        b.index? (i + (positionAt k).1) (j + (positionAt k).2) = some c →
        b.set? (i + (positionAt k).1) (j + (positionAt k).2) (flip c) =
          some b' →
        ∃ n n' : Nat, decide_char ⟨true⟩ b i j = some (0x2800 + n) ∧
          decide_char ⟨true⟩ b' i j = some (0x2800 + n') ∧
          ((n' : Int) - (n : Int)).natAbs =
            brailleDotWeight (positionAt k).1 (positionAt k).2) := by
  refine ⟨?_, ?_, ?_⟩
  · intro b hwf i j hi hj hall
    rw [decide_char_braille_eval hwf hi hj]
    have h1 : cellAt b (i + 0) (j + 0) = Cell.Alive := hall (0, 0) (by decide)
    have h2 : cellAt b (i + 1) (j + 0) = Cell.Alive := hall (1, 0) (by decide)
    have h3 : cellAt b (i + 2) (j + 0) = Cell.Alive := hall (2, 0) (by decide)
    have h4 : cellAt b (i + 0) (j + 1) = Cell.Alive := hall (0, 1) (by decide)
    have h5 : cellAt b (i + 1) (j + 1) = Cell.Alive := hall (1, 1) (by decide)
    have h6 : cellAt b (i + 2) (j + 1) = Cell.Alive := hall (2, 1) (by decide)
    have h7 : cellAt b (i + 3) (j + 0) = Cell.Alive := hall (3, 0) (by decide)
    have h8 : cellAt b (i + 3) (j + 1) = Cell.Alive := hall (3, 1) (by decide)
    rw [h1, h2, h3, h4, h5, h6, h7, h8]
    decide
  · intro b hwf i j hi hj hall
    rw [decide_char_braille_eval hwf hi hj]
    have h1 : cellAt b (i + 0) (j + 0) = Cell.Dead := hall (0, 0) (by decide)
    have h2 : cellAt b (i + 1) (j + 0) = Cell.Dead := hall (1, 0) (by decide)
    have h3 : cellAt b (i + 2) (j + 0) = Cell.Dead := hall (2, 0) (by decide)
    have h4 : cellAt b (i + 0) (j + 1) = Cell.Dead := hall (0, 1) (by decide)
    have h5 : cellAt b (i + 1) (j + 1) = Cell.Dead := hall (1, 1) (by decide)
    have h6 : cellAt b (i + 2) (j + 1) = Cell.Dead := hall (2, 1) (by decide)
    have h7 : cellAt b (i + 3) (j + 0) = Cell.Dead := hall (3, 0) (by decide)
    have h8 : cellAt b (i + 3) (j + 1) = Cell.Dead := hall (3, 1) (by decide)
    rw [h1, h2, h3, h4, h5, h6, h7, h8]
    decide
  · intro b b' hwf i j hi hj k c hidx hset
    have hwf' : b'.wf := Array2d.set?_wf hwf hset
    obtain ⟨hw', hh', _⟩ := Array2d.set?_dims hset
    have hc : cellAt b (i + (positionAt k).1) (j + (positionAt k).2) = c :=
      cellAt_of_index? hidx
    have hcells : ∀ m : Fin 8,
        cellAt b' (i + (positionAt m).1) (j + (positionAt m).2) =
          Function.update
            (fun m : Fin 8 =>
              cellAt b (i + (positionAt m).1) (j + (positionAt m).2))
            k (flip c) m := by
      intro m
      by_cases hmk : m = k
      · subst hmk
        rw [Function.update_same]
        exact cellAt_set?_self hset
      · rw [Function.update_noteq hmk]
        have hplem := positionAt_le m
        refine cellAt_set?_other hwf hset (by omega) (by omega) ?_
        rintro ⟨ha, hb⟩
        apply hmk
        apply positionAt_inj m k
        have e1 : (positionAt m).1 = (positionAt k).1 := by omega
        have e2 : (positionAt m).2 = (positionAt k).2 := by omega
        exact Prod.ext e1 e2
    have hevalb := decide_char_braille_eval hwf hi hj
    have hevalb' := decide_char_braille_eval hwf' (i := i) (j := j)
      (by omega) (by omega)
    rw [cells_list_eq b i j] at hevalb
    rw [cells_list_eq b' i j] at hevalb'
    have hfun : (fun m : Fin 8 =>
        cellAt b' (i + (positionAt m).1) (j + (positionAt m).2)) =
        Function.update
          (fun m : Fin 8 =>
            cellAt b (i + (positionAt m).1) (j + (positionAt m).2))
          k (flip c) :=
      funext hcells
    rw [hfun] at hevalb'
    refine ⟨pack ((List.finRange 8).map
        (fun m : Fin 8 =>
          cellAt b (i + (positionAt m).1) (j + (positionAt m).2))),
      pack ((List.finRange 8).map (Function.update
        (fun m : Fin 8 =>
          cellAt b (i + (positionAt m).1) (j + (positionAt m).2))
        k (flip c))),
      hevalb, hevalb', ?_⟩
    have hne : ¬ ((fun m : Fin 8 =>
        cellAt b (i + (positionAt m).1) (j + (positionAt m).2)) k = flip c) := by
      show ¬ (cellAt b (i + (positionAt k).1) (j + (positionAt k).2) = flip c)
      rw [hc]
      exact flip_ne c
    rw [pack_flip k
      (fun m : Fin 8 => cellAt b (i + (positionAt m).1) (j + (positionAt m).2))
      (flip c), if_neg hne, brailleDotWeight_at k]

theorem c5_witness :
    (brailleAliveBuff.wf ∧ brailleDemoBuff.wf ∧
      brailleDemoBuffFlipped.wf ∧
      0 + 3 < brailleDemoBuff.h ∧ 0 + 1 < brailleDemoBuff.w ∧
      0 + 3 < brailleAliveBuff.h ∧ 0 + 1 < brailleAliveBuff.w ∧
      (∀ d ∈ positions,
        cellAt brailleAliveBuff (0 + d.1) (0 + d.2) = Cell.Alive) ∧
      (∀ d ∈ positions,
        cellAt brailleDemoBuff (0 + d.1) (0 + d.2) = Cell.Dead) ∧
      brailleDemoBuff.index? (0 + (positionAt 0).1) (0 + (positionAt 0).2) =
        some Cell.Dead ∧
      brailleDemoBuff.set? (0 + (positionAt 0).1) (0 + (positionAt 0).2)
        (flip Cell.Dead) = some brailleDemoBuffFlipped) ∧
    decide_char ⟨true⟩ brailleAliveBuff 0 0 = some (0x2800 + 255) ∧
    decide_char ⟨true⟩ brailleDemoBuff 0 0 = some (0x2800 + 0) ∧
    ∃ n n' : Nat, decide_char ⟨true⟩ brailleDemoBuff 0 0 = some (0x2800 + n) ∧
      decide_char ⟨true⟩ brailleDemoBuffFlipped 0 0 = some (0x2800 + n') ∧
      ((n' : Int) - (n : Int)).natAbs =
        brailleDotWeight (positionAt 0).1 (positionAt 0).2 :=
  ⟨⟨by decide, by decide, by decide, by decide, by decide, by decide,
      by decide, by decide, by decide, by decide, by decide⟩,
    c5_braille_pack_round_trip.1 brailleAliveBuff (by decide) 0 0
      (by decide) (by decide) (by decide),
    c5_braille_pack_round_trip.2.1 brailleDemoBuff (by decide) 0 0
      (by decide) (by decide) (by decide),
    c5_braille_pack_round_trip.2.2 brailleDemoBuff brailleDemoBuffFlipped
      (by decide) 0 0 (by decide) (by decide) 0 Cell.Dead
      (by decide) (by decide)⟩

/-- C6: when the grid dimensions equal the screen size times the character
cell size, a full render pass reads only in-range coordinates: in braille
mode each glyph needs at most `(block_row+3, block_col+1)`, and no bounds
assertion fires (`render?` never returns `none`). -/
theorem c6_render_in_bounds (r : TerminalRenderer) (b : Buff) (hwf : b.wf)
    (screen_w screen_h : Nat)
    (hw : b.w = screen_w * (char_size r).1)
    (hh : b.h = screen_h * (char_size r).2) :
    (r.braille = true →
      ∀ i j, i + 3 < b.h → j + 1 < b.w → (decide_char r b i j).isSome) ∧
    (render? r screen_w screen_h b).isSome := by
  obtain ⟨br⟩ := r
  cases br
  · refine ⟨fun h => absurd h (by decide), ?_⟩
    unfold render?
    apply mapM_isSome
    intro line hline
    apply mapM_isSome
    intro x hx
    rw [List.mem_range] at hline hx
    have hi : line * (char_size ⟨false⟩).2 < b.h := by
      simp only [char_size, Bool.false_eq_true, if_false] at hh ⊢
      omega
    have hj : x * (char_size ⟨false⟩).1 < b.w := by
      simp only [char_size, Bool.false_eq_true, if_false] at hw ⊢
      omega
    simp [decide_char_block_eval hwf hi hj]
  · refine ⟨?_, ?_⟩
    · intro _ i j hi hj
      simp [decide_char_braille_eval hwf hi hj]
    · unfold render?
      apply mapM_isSome
      intro line hline
      apply mapM_isSome
      intro x hx
      rw [List.mem_range] at hline hx
      have hi : line * (char_size ⟨true⟩).2 + 3 < b.h := by
        simp only [char_size, if_true] at hh ⊢
        omega
      have hj : x * (char_size ⟨true⟩).1 + 1 < b.w := by
        simp only [char_size, if_true] at hw ⊢
        omega
      simp [decide_char_braille_eval hwf hi hj]

theorem c6_witness :
    (brailleDemoBuff.wf ∧
      brailleDemoBuff.w = 2 * (char_size ⟨true⟩).1 ∧
      brailleDemoBuff.h = 2 * (char_size ⟨true⟩).2) ∧
    (render? ⟨true⟩ 2 2 brailleDemoBuff).isSome :=
  ⟨⟨by decide, by decide, by decide⟩,
    (c6_render_in_bounds ⟨true⟩ brailleDemoBuff (by decide) 2 2
      (by decide) (by decide)).2⟩

/-- C7: the grid size the renderer reports is the screen size times the
cells-per-character ratio: `(1,1)` in block mode, `(2,4)` in sub-pixel
(braille) mode. -/
theorem c7_size_formula : ∀ (r : TerminalRenderer) (screen_w screen_h : Nat),
    size r screen_w screen_h =
      (screen_w * (if r.braille then 2 else 1),
       screen_h * (if r.braille then 4 else 1)) := by
  intro r sw sh
  obtain ⟨br⟩ := r
  cases br <;> rfl

/-- C8: `new` establishes the dimension invariant (the scratch buffer is a
same-sized all-dead grid, the initial current grid is the argument), and
`update` preserves it: the dimensions of the current grid never change. -/
theorem c8_dimensions_conserved :
    (∀ b : Buff, b.wf →
      GameOfLife.Inv (GameOfLife.new b) ∧
      (GameOfLife.new b).state = b ∧
      (GameOfLife.new b).buffs.2.dims = b.dims ∧
      (∀ i j, i < b.h → j < b.w →
        (GameOfLife.new b).buffs.2.index? i j = some Cell.Dead)) ∧
    (∀ g : GameOfLife, GameOfLife.Inv g →
      ∃ g', g.update? = some g' ∧ GameOfLife.Inv g' ∧
        g'.state.dims = g.state.dims) := by
  constructor
  · intro b hwf
    refine ⟨⟨hwf, Array2d.new_with_wf b.w b.h (fun _ _ => Cell.Dead), rfl⟩,
      rfl, rfl, ?_⟩
    intro i j hi hj
    exact Array2d.new_with_index? b.w b.h (fun _ _ => Cell.Dead) hi hj
  · intro g hInv
    obtain ⟨g', ha, hb, hc, hw, hh, _⟩ := GameOfLife.update?_spec g hInv
    exact ⟨g', ha, hc, GameOfLife.dims_eq_iff.mpr ⟨hw, hh⟩⟩

theorem c8_witness :
    demoBuff.wf ∧ GameOfLife.Inv (GameOfLife.new demoBuff) ∧
    (GameOfLife.new demoBuff).state = demoBuff ∧
    ∃ g', (GameOfLife.new demoBuff).update? = some g' ∧
      GameOfLife.Inv g' ∧
      g'.state.dims = (GameOfLife.new demoBuff).state.dims :=
  ⟨by decide, (c8_dimensions_conserved.1 demoBuff (by decide)).1,
    (c8_dimensions_conserved.1 demoBuff (by decide)).2.1,
    c8_dimensions_conserved.2 (GameOfLife.new demoBuff)
      (c8_dimensions_conserved.1 demoBuff (by decide)).1⟩

/-- C9: indexed access succeeds exactly in range.  In range, `index?` reads
the single stored cell and `set?` replaces exactly that cell, leaving every
other coordinate unchanged; out of range, both fail (the assertion-style
panic is modelled as `none`), never returning or wrapping to another cell. -/
theorem c9_index_access_contract (a : Buff) (hwf : a.wf) (i j : Nat) :
    (i < a.h ∧ j < a.w →
      a.index? i j = some (a.get i j Cell.Dead) ∧
      ∀ x, ∃ a', a.set? i j x = some a' ∧
        a'.index? i j = some x ∧
        ∀ i' j', ¬(i' = i ∧ j' = j) → a'.index? i' j' = a.index? i' j') ∧
    (¬(i < a.h ∧ j < a.w) →
      a.index? i j = none ∧ ∀ x, a.set? i j x = none) := by
  constructor
  · rintro ⟨hi, hj⟩
    refine ⟨Array2d.index?_eq_get hwf Cell.Dead hi hj, ?_⟩
    intro x
    have hset := Array2d.set?_eq_some hwf x hi hj
    exact ⟨_, hset, Array2d.index?_set?_self hset,
      fun i' j' hne => Array2d.index?_set?_other hset hne⟩
  · intro hout
    exact ⟨Array2d.index?_none_of_out hout,
      fun x => Array2d.set?_none_of_out x hout⟩

theorem c9_witness :
    demoBuff.wf ∧
    ((1 < demoBuff.h ∧ 2 < demoBuff.w →
      demoBuff.index? 1 2 = some (demoBuff.get 1 2 Cell.Dead) ∧
      ∀ x, ∃ a', demoBuff.set? 1 2 x = some a' ∧
        a'.index? 1 2 = some x ∧
        ∀ i' j', ¬(i' = 1 ∧ j' = 2) → a'.index? i' j' = demoBuff.index? i' j') ∧
    (¬(1 < demoBuff.h ∧ 2 < demoBuff.w) →
      demoBuff.index? 1 2 = none ∧ ∀ x, demoBuff.set? 1 2 x = none)) ∧
    ((9 < demoBuff.h ∧ 9 < demoBuff.w →
      demoBuff.index? 9 9 = some (demoBuff.get 9 9 Cell.Dead) ∧
      ∀ x, ∃ a', demoBuff.set? 9 9 x = some a' ∧
        a'.index? 9 9 = some x ∧
        ∀ i' j', ¬(i' = 9 ∧ j' = 9) → a'.index? i' j' = demoBuff.index? i' j') ∧
    (¬(9 < demoBuff.h ∧ 9 < demoBuff.w) →
      demoBuff.index? 9 9 = none ∧ ∀ x, demoBuff.set? 9 9 x = none)) :=
  ⟨by decide, c9_index_access_contract demoBuff (by decide) 1 2,
    c9_index_access_contract demoBuff (by decide) 9 9⟩

/-- C10: in braille mode, at any in-range block origin the packed code is
at most 255, so the emitted codepoint lies inside the Braille Patterns
block `[0x2800, 0x28FF]` and the `char::from_u32` conversion (and its
unwrap) cannot fail. -/
theorem c10_braille_codepoint_valid (b : Buff) (hwf : b.wf) (i j : Nat)
    (hi : i + 3 < b.h) (hj : j + 1 < b.w) :
    ∃ n, decide_char ⟨true⟩ b i j = some n ∧
      0x2800 ≤ n ∧ n ≤ 0x28FF ∧ char_from_u32 n = some n := by
  have hle := pack_le_255 (cellAt b (i + 0) (j + 0)) (cellAt b (i + 1) (j + 0))
    (cellAt b (i + 2) (j + 0)) (cellAt b (i + 0) (j + 1))
    (cellAt b (i + 1) (j + 1)) (cellAt b (i + 2) (j + 1))
    (cellAt b (i + 3) (j + 0)) (cellAt b (i + 3) (j + 1))
  rw [decide_char_braille_eval hwf hi hj]
  exact ⟨_, rfl, by omega, by omega, char_from_u32_braille hle⟩

theorem c10_witness :
    (brailleAliveBuff.wf ∧ 0 + 3 < brailleAliveBuff.h ∧
      0 + 1 < brailleAliveBuff.w) ∧
    ∃ n, decide_char ⟨true⟩ brailleAliveBuff 0 0 = some n ∧
      0x2800 ≤ n ∧ n ≤ 0x28FF ∧ char_from_u32 n = some n :=
  ⟨⟨by decide, by decide, by decide⟩,
    c10_braille_codepoint_valid brailleAliveBuff (by decide) 0 0
      (by decide) (by decide)⟩

end GoL
